import Mathlib

/- Verification development for the sandwich-detection repository.

   Shallow embedding conventions:
   - Rust u64 values are modelled as Nat; wherever the source performs an
     unchecked u64 operation that can wrap in a release build, the embedding
     reduces modulo 2 ^ 64 explicitly (u64Mod).  Rust saturating_sub on u64
     is Nat subtraction, which is exactly saturating subtraction.
   - Rust i64 / i128 values are modelled as Int, with wrapping written
     explicitly where the source can wrap.
   - Rust String values are modelled as List Char; the Rust Ord instance on
     String (lexicographic on UTF-8 bytes) coincides with lexicographic
     order on code points, which lexLt implements.
   - f64 threshold fields of the detector configuration are modelled as
     exact rationals; the detector claims under study treat the magnitude
     check only as an opaque gate, so the f64 rounding of the source is
     immaterial to them. -/

-- ===================================================================
-- src/simulate/src/main.rs : the bonding-curve simulator
-- ===================================================================

/-- Reduction modulo 2 ^ 64: the value stored by an unchecked u64 operation. -/
def u64Mod (n : Nat) : Nat := n % 2 ^ 64

def LAMPORTS_PER_SOL : Nat := 1000000000

def TOKEN_DECIMALS : Nat := 1000000

def INITIAL_VIRTUAL_SOL : Nat := 30 * LAMPORTS_PER_SOL

def INITIAL_VIRTUAL_TOKEN : Nat := 1073000000 * TOKEN_DECIMALS

def INITIAL_REAL_SOL : Nat := 0

def INITIAL_REAL_TOKEN : Nat := 793100000 * TOKEN_DECIMALS

def FEE_BPS : Nat := 30

/-- The four u64 reserve fields of the simulator state. -/
structure PumpAmmState where
  virtual_sol : Nat
  virtual_token : Nat
  real_sol : Nat
  real_token : Nat
deriving DecidableEq

/-- PumpAmmState::new, the genesis reserves. -/
def PumpAmmState.new : PumpAmmState :=
  { virtual_sol := INITIAL_VIRTUAL_SOL
    virtual_token := INITIAL_VIRTUAL_TOKEN
    real_sol := INITIAL_REAL_SOL
    real_token := INITIAL_REAL_TOKEN }

/-- All four reserve fields are in u64 range (true of every Rust value of the
    struct; stated explicitly because the embedding uses Nat). -/
def ValidState (s : PumpAmmState) : Prop :=
  s.virtual_sol < 2 ^ 64 ∧ s.virtual_token < 2 ^ 64 ∧
    s.real_sol < 2 ^ 64 ∧ s.real_token < 2 ^ 64

instance (s : PumpAmmState) : Decidable (ValidState s) := by
  unfold ValidState; infer_instance

/-- Line 40: (sol_in * FEE_BPS / 10_000).max(1).  The u64 multiplication
    sol_in * FEE_BPS is unchecked and wraps modulo 2 ^ 64. -/
def buyFee (sol_in : Nat) : Nat := max (u64Mod (sol_in * FEE_BPS) / 10000) 1

/-- Lines 43-47: the constant-product output before the slippage check.
    The two factors are u64-to-u128 casts, so the u128 product and the u128
    denominator cannot wrap; the final cast back to u64 is u64Mod. -/
def rawBuyOut (s : PumpAmmState) (sol_in : Nat) : Nat :=
  let sol_in_after_fee := sol_in - buyFee sol_in
  if s.virtual_sol = 0 then 0
  else u64Mod (sol_in_after_fee * s.virtual_token / (s.virtual_sol + sol_in_after_fee))

/-- PumpAmmState::simulate_buy (lines 39-63).  Returns the state after the
    call together with the (tokens_out, sol_in) pair the source returns.
    Subtractions on reserves are saturating_sub in the source; the reserve
    additions are unchecked u64 additions, hence the u64Mod. -/
def simulate_buy (s : PumpAmmState) (sol_in min_tokens_out : Nat) :
    PumpAmmState × Nat × Nat :=
  let sol_in_after_fee := sol_in - buyFee sol_in
  let tokens_out := rawBuyOut s sol_in
  let tokens_out := if tokens_out < min_tokens_out then 0 else tokens_out
  if 0 < tokens_out then
    ({ virtual_sol := u64Mod (s.virtual_sol + sol_in_after_fee)
       virtual_token := s.virtual_token - tokens_out
       real_sol := u64Mod (s.real_sol + sol_in)
       real_token := s.real_token - tokens_out }, tokens_out, sol_in)
  else (s, tokens_out, sol_in)

/-- Line 66: (tokens_in * FEE_BPS / 10_000).max(1); unchecked u64 multiply. -/
def sellFee (tokens_in : Nat) : Nat := max (u64Mod (tokens_in * FEE_BPS) / 10000) 1

/-- Lines 69-73: constant-product output of the sell before the slippage check. -/
def rawSellOut (s : PumpAmmState) (tokens_in : Nat) : Nat :=
  let tokens_in_after_fee := tokens_in - sellFee tokens_in
  if s.virtual_token = 0 then 0
  else u64Mod (tokens_in_after_fee * s.virtual_sol / (s.virtual_token + tokens_in_after_fee))

/-- PumpAmmState::simulate_sell (lines 65-89). -/
def simulate_sell (s : PumpAmmState) (tokens_in min_sol_out : Nat) :
    PumpAmmState × Nat :=
  let tokens_in_after_fee := tokens_in - sellFee tokens_in
  let sol_out := rawSellOut s tokens_in
  let sol_out := if sol_out < min_sol_out then 0 else sol_out
  if 0 < sol_out then
    ({ virtual_sol := s.virtual_sol - sol_out
       virtual_token := u64Mod (s.virtual_token + tokens_in_after_fee)
       real_sol := s.real_sol - sol_out
       real_token := u64Mod (s.real_token + tokens_in) }, sol_out)
  else (s, sol_out)

-- ===================================================================
-- src/parse_and_detect/src/parser/pumpfun.rs : i128 -> i64 clamp
-- ===================================================================

/-- i128_to_i64 (pumpfun.rs lines 308-316): clamp a wide signed value into
    the i64 range.  The i128 argument is modelled as Int; the function is
    the same piecewise clamp on the whole of Int. -/
def i128_to_i64 (value : Int) : Int :=
  if value > 2 ^ 63 - 1 then 2 ^ 63 - 1
  else if value < -(2 ^ 63) then -(2 ^ 63)
  else value

-- ===================================================================
-- src/parse_and_detect/src/parser/pumpfun.rs : instruction decoding
-- ===================================================================

def BUY_DISCRIMINATOR : List Nat := [102, 6, 61, 18, 1, 218, 235, 234]

def SELL_DISCRIMINATOR : List Nat := [51, 230, 133, 164, 1, 127, 131, 173]

inductive TradeType where
  | Buy
  | Sell
deriving DecidableEq

/-- The (trade_type, token_amount_requested, sol_limit_specified) record
    produced by a successful decode. -/
structure DecodedInstruction where
  trade_type : TradeType
  token_amount_requested : Nat
  sol_limit_specified : Nat
deriving DecidableEq

/-- The base-58 alphabet shared by the bs58 crate and every base-58 codec:
    digits and letters with 0, O, I, l removed. -/
def B58_ALPHABET : List Char :=
  ['1', '2', '3', '4', '5', '6', '7', '8', '9',
   'A', 'B', 'C', 'D', 'E', 'F', 'G', 'H', 'J', 'K', 'L', 'M', 'N',
   'P', 'Q', 'R', 'S', 'T', 'U', 'V', 'W', 'X', 'Y', 'Z',
   'a', 'b', 'c', 'd', 'e', 'f', 'g', 'h', 'i', 'j', 'k', 'm', 'n', 'o',
   'p', 'q', 'r', 's', 't', 'u', 'v', 'w', 'x', 'y', 'z']

/-- Value (0..57) of one base-58 character, none for a character outside the
    alphabet. -/
def b58Digit (c : Char) : Option Nat := B58_ALPHABET.findIdx? (· = c)

/-- Digits of a whole base-58 string; none as soon as one character is
    invalid (the bs58 crate fails the whole decode on the first bad char). -/
def b58DigitsOf : List Char → Option (List Nat)
  | [] => some []
  | c :: cs =>
    match b58Digit c, b58DigitsOf cs with
    | some d, some ds => some (d :: ds)
    | _, _ => none

/-- Big-endian base-B digits of n, with explicit fuel so that the definition
    is structural (fuel at least n always suffices). -/
def natDigitsBE (B : Nat) : Nat → Nat → List Nat
  | 0, _ => []
  | fuel + 1, n => if n = 0 then [] else natDigitsBE B fuel (n / B) ++ [n % B]

/-- The numeric value of a digit string in base B, most significant first. -/
def baseVal (B : Nat) (ds : List Nat) : Nat := ds.foldl (fun a d => a * B + d) 0

/-- Modelled from the spec: the bs58 crate decode used at pumpfun.rs line 198
    ("the instruction payload is base-58 text; decode to bytes").  Each
    leading character 1 (digit 0) contributes one leading zero byte; the
    digit string as a whole is read as a big base-58 number whose minimal
    big-endian base-256 digits are the remaining bytes. -/
def bs58_decode (s : List Char) : Option (List Nat) :=
  match b58DigitsOf s with
  | none => none
  | some ds =>
    let n := baseVal 58 ds
    some (List.replicate (ds.takeWhile (· = 0)).length 0 ++ natDigitsBE 256 n n)

/-- The character of one base-58 digit. -/
def b58Char (d : Nat) : Char := B58_ALPHABET.getD d ' '

/-- The inverse direction, used only to phrase the round-trip property:
    the base-58 text of a byte string. -/
def bs58_encode (bytes : List Nat) : List Char :=
  let n := baseVal 256 bytes
  List.replicate (bytes.takeWhile (· = 0)).length '1' ++
    (natDigitsBE 58 n n).map b58Char

/-- A u64 read from exactly eight little-endian bytes. -/
def leVal (l : List Nat) : Nat := l.foldr (fun b acc => b + 256 * acc) 0

/-- The eight little-endian bytes of a u64. -/
def leBytes8 (n : Nat) : List Nat :=
  [n % 256, n / 256 % 256, n / 256 ^ 2 % 256, n / 256 ^ 3 % 256,
   n / 256 ^ 4 % 256, n / 256 ^ 5 % 256, n / 256 ^ 6 % 256, n / 256 ^ 7 % 256]

/-- Modelled from the spec: borsh deserialization of BuyArgs
    { amount: u64, max_sol_cost: u64 } ("the remainder is a fixed-layout
    little-endian argument record"); borsh requires the slice to be consumed
    exactly, so any length other than 16 fails. -/
def buyArgsFromSlice (payload : List Nat) : Option (Nat × Nat) :=
  if payload.length = 16 then some (leVal (payload.take 8), leVal (payload.drop 8))
  else none

/-- Modelled from the spec: borsh deserialization of SellArgs
    { amount: u64, min_sol_output: u64 }, same fixed 16-byte layout. -/
def sellArgsFromSlice (payload : List Nat) : Option (Nat × Nat) :=
  if payload.length = 16 then some (leVal (payload.take 8), leVal (payload.drop 8))
  else none

/-- try_decode (pumpfun.rs lines 212-234).  The try_into at line 213 fails
    unless the discriminator slice has exactly eight bytes. -/
def try_decode (disc_slice payload : List Nat) : Option DecodedInstruction :=
  if disc_slice.length = 8 then
    if disc_slice = BUY_DISCRIMINATOR then
      (buyArgsFromSlice payload).map fun args =>
        { trade_type := TradeType.Buy
          token_amount_requested := args.1
          sol_limit_specified := args.2 }
    else if disc_slice = SELL_DISCRIMINATOR then
      (sellArgsFromSlice payload).map fun args =>
        { trade_type := TradeType.Sell
          token_amount_requested := args.1
          sol_limit_specified := args.2 }
    else none
  else none

/-- The byte-level stage of decode_instruction_data (lines 199-209): length
    check, then the [0..8) window with the [1..9) window as fallback. -/
def decode_raw (raw : List Nat) : Option DecodedInstruction :=
  if raw.length < 8 then none
  else
    (try_decode (raw.take 8) (raw.drop 8)).orElse fun _ =>
      if 9 ≤ raw.length then try_decode ((raw.drop 1).take 8) (raw.drop 9)
      else none

/-- decode_instruction_data (lines 197-210): base-58 decode then decode_raw. -/
def decode_instruction_data (data_b58 : List Char) : Option DecodedInstruction :=
  (bs58_decode data_b58).bind decode_raw

-- ===================================================================
-- src/index_and_detect/src/detect.rs : the attack detector
-- ===================================================================

/-- Byte-lexicographic strict order of the Rust String Ord instance,
    on the List Char model (UTF-8 byte order equals code-point order). -/
def lexLt : List Char → List Char → Bool
  | [], [] => false
  | [], _ :: _ => true
  | _ :: _, [] => false
  | a :: as, b :: bs => if a = b then lexLt as bs else decide (a < b)

/-- ParsedTransaction (pumpfun.rs lines 18-29), the trade fact consumed by
    the detector. -/
structure ParsedTransaction where
  signature : List Char
  slot : Nat
  signer : List Char
  mint : List Char
  trade_type : TradeType
  token_amount_requested : Nat
  sol_limit_specified : Nat
  sol_change : Int
  token_change : Int
deriving DecidableEq

structure SandwichDetection where
  victim : ParsedTransaction
  frontruns : List ParsedTransaction
  backruns : List ParsedTransaction
  net_profit_sol : Int
  net_token_delta : Int
deriving DecidableEq

structure FrontRunEvent where
  victim : ParsedTransaction
  frontruns : List ParsedTransaction
deriving DecidableEq

structure BackRunEvent where
  victim : ParsedTransaction
  backruns : List ParsedTransaction
deriving DecidableEq

structure DetectionSummary where
  front_runs : List FrontRunEvent
  back_runs : List BackRunEvent
  sandwiches : List SandwichDetection
deriving DecidableEq

/-- DetectorConfig (detect.rs lines 32-39); the two f64 magnitude thresholds
    are modelled as exact rationals. -/
structure DetectorConfig where
  max_slot_gap : Nat
  min_victim_abs_sol : Rat
  min_victim_abs_token : Rat
  min_profit_lamports : Int
  min_bot_trades : Nat
deriving DecidableEq

/-- occurs_before (detect.rs lines 181-183). -/
def occurs_before (a b : ParsedTransaction) : Bool :=
  decide (a.slot < b.slot) || (a.slot == b.slot && lexLt a.signature b.signature)

/-- occurs_after (detect.rs lines 185-187). -/
def occurs_after (a b : ParsedTransaction) : Bool :=
  decide (a.slot > b.slot) || (a.slot == b.slot && lexLt b.signature a.signature)

/-- is_frontrun_candidate (detect.rs lines 173-175). -/
def is_frontrun_candidate (front victim : ParsedTransaction) : Bool :=
  occurs_before front victim && front.trade_type == victim.trade_type

/-- is_backrun_candidate (detect.rs lines 177-179). -/
def is_backrun_candidate (back victim : ParsedTransaction) : Bool :=
  occurs_after back victim && back.trade_type != victim.trade_type

/-- positive_amount (detect.rs lines 227-229). -/
def positive_amount (value : Int) : Nat := if 0 < value then value.toNat else 0

/-- negative_amount (detect.rs lines 231-233).  For value = i64 MIN the Rust
    release negation wraps to i64 MIN and the u64 cast reads its bit pattern
    as 2 ^ 63, which equals the mathematical magnitude used here. -/
def negative_amount (value : Int) : Nat := if value < 0 then (-value).toNat else 0

structure ExecutionBreach where
  price_limit : Bool
  amount_limit : Bool

/-- ExecutionBreach::any (detect.rs lines 195-199). -/
def ExecutionBreach.any (e : ExecutionBreach) : Bool := e.price_limit || e.amount_limit

/-- analyze_execution (detect.rs lines 201-220). -/
def analyze_execution (tx : ParsedTransaction) : ExecutionBreach :=
  match tx.trade_type with
  | TradeType.Buy =>
    { price_limit := decide (tx.sol_limit_specified < negative_amount tx.sol_change)
      amount_limit := decide (positive_amount tx.token_change < tx.token_amount_requested) }
  | TradeType.Sell =>
    { price_limit := decide (positive_amount tx.sol_change < tx.sol_limit_specified)
      amount_limit := decide (tx.token_amount_requested < negative_amount tx.token_change) }

/-- magnitude_exceeds (detect.rs lines 222-225), with the two f64
    comparisons carried out in exact rational arithmetic. -/
def magnitude_exceeds (tx : ParsedTransaction) (cfg : DetectorConfig) : Bool :=
  decide (cfg.min_victim_abs_sol ≤ |(tx.sol_change : Rat)| / 1000000000) ||
    decide (cfg.min_victim_abs_token ≤ |(tx.token_change : Rat)|)

/-- Number of trades in the batch carrying the given signer (the value the
    signer_counts HashMap of lines 58-61 assigns to it). -/
def signerCount (trades : List ParsedTransaction) (s : List Char) : Nat :=
  (trades.filter (fun t => t.signer = s)).length

/-- Membership in the bot_signers set of lines 62-65. -/
def isBot (trades : List ParsedTransaction) (cfg : DetectorConfig) (s : List Char) : Bool :=
  decide (cfg.min_bot_trades ≤ signerCount trades s)

/-- The trades the BTreeMap of lines 67-70 stores at one slot, in batch
    order. -/
def txAtSlot (trades : List ParsedTransaction) (s : Nat) : List ParsedTransaction :=
  trades.filter (fun t => t.slot = s)

/-- The ascending key list of that BTreeMap: the distinct slots, sorted. -/
def slotKeys (trades : List ParsedTransaction) : List Nat :=
  List.insertionSort (· ≤ ·) ((trades.map ParsedTransaction.slot).dedup)

/-- The victims in processing order (ascending slot, batch order inside one
    slot), i.e. the iteration order of the nested loops at lines 75-80. -/
def victimOrder (trades : List ParsedTransaction) : List ParsedTransaction :=
  (slotKeys trades).flatMap (txAtSlot trades)

/-- The wrapped i64 value of an i64 addition result. -/
def wrapI64 (x : Int) : Int := (x + 2 ^ 63) % 2 ^ 64 - 2 ^ 63

/-- net_sol accumulation of lines 149-154: i64 additions, each wrapping. -/
def netSol (legs : List ParsedTransaction) : Int :=
  legs.foldl (fun a t => wrapI64 (a + t.sol_change)) 0

/-- net_tokens accumulation of lines 149-154. -/
def netTokens (legs : List ParsedTransaction) : Int :=
  legs.foldl (fun a t => wrapI64 (a + t.token_change)) 0

/-- The per-candidate filter of the front-run scan (lines 94-112): not the
    victim signature, same mint, ordered before when in the victim slot,
    bot signer, and a front-run candidate. -/
def frontrunCheck (trades : List ParsedTransaction) (cfg : DetectorConfig)
    (victim tx : ParsedTransaction) : Bool :=
  tx.signature ≠ victim.signature && tx.mint == victim.mint &&
    (tx.slot != victim.slot || occurs_before tx victim) &&
    isBot trades cfg tx.signer && is_frontrun_candidate tx victim

/-- The front-run legs collected for one victim (lines 90-112): slots of the
    window scanned in ascending order, trades inside a slot in batch order. -/
def frontrunsFor (trades : List ParsedTransaction) (cfg : DetectorConfig)
    (victim : ParsedTransaction) : List ParsedTransaction :=
  (((slotKeys trades).filter fun s =>
      victim.slot - cfg.max_slot_gap ≤ s ∧ s ≤ victim.slot).flatMap
    (txAtSlot trades)).filter (frontrunCheck trades cfg victim)

/-- The per-candidate filter of the back-run scan (lines 121-139). -/
def backrunCheck (trades : List ParsedTransaction) (cfg : DetectorConfig)
    (victim tx : ParsedTransaction) : Bool :=
  tx.signature ≠ victim.signature && tx.mint == victim.mint &&
    (tx.slot != victim.slot || occurs_after tx victim) &&
    isBot trades cfg tx.signer && is_backrun_candidate tx victim

/-- The back-run legs collected for one victim (lines 121-139); the upper
    bound of the window is the saturating u64 addition of line 91. -/
def backrunsFor (trades : List ParsedTransaction) (cfg : DetectorConfig)
    (victim : ParsedTransaction) : List ParsedTransaction :=
  (((slotKeys trades).filter fun s =>
      victim.slot ≤ s ∧ s ≤ min (victim.slot + cfg.max_slot_gap) (2 ^ 64 - 1)).flatMap
    (txAtSlot trades)).filter (backrunCheck trades cfg victim)

/-- The victim gate of lines 81-88: an execution breach and the magnitude
    threshold. -/
def victimPasses (cfg : DetectorConfig) (v : ParsedTransaction) : Bool :=
  (analyze_execution v).any && magnitude_exceeds v cfg

/-- detect_wide_attacks (detect.rs lines 53-171).  The source grows the
    three summary lists inside one loop over the victims in victimOrder;
    because the three pushes are independent, each output list equals a
    filterMap of that victim sequence. -/
def detect_wide_attacks (trades : List ParsedTransaction) (cfg : DetectorConfig) :
    DetectionSummary :=
  if trades.isEmpty then { front_runs := [], back_runs := [], sandwiches := [] }
  else
    { front_runs := (victimOrder trades).filterMap fun v =>
        if victimPasses cfg v && !(frontrunsFor trades cfg v).isEmpty then
          some { victim := v, frontruns := frontrunsFor trades cfg v }
        else none
      back_runs := (victimOrder trades).filterMap fun v =>
        if victimPasses cfg v && !(backrunsFor trades cfg v).isEmpty then
          some { victim := v, backruns := backrunsFor trades cfg v }
        else none
      sandwiches := (victimOrder trades).filterMap fun v =>
        if victimPasses cfg v && !(frontrunsFor trades cfg v).isEmpty &&
            !(backrunsFor trades cfg v).isEmpty &&
            decide (cfg.min_profit_lamports ≤
              netSol (frontrunsFor trades cfg v ++ backrunsFor trades cfg v)) then
          some { victim := v
                 frontruns := frontrunsFor trades cfg v
                 backruns := backrunsFor trades cfg v
                 net_profit_sol := netSol (frontrunsFor trades cfg v ++ backrunsFor trades cfg v)
                 net_token_delta := netTokens (frontrunsFor trades cfg v ++ backrunsFor trades cfg v) }
        else none }

-- Concrete trades and configurations used by the detector witnesses.

def exFront : ParsedTransaction :=
  { signature := ['a'], slot := 100, signer := ['z'], mint := ['m']
    trade_type := TradeType.Buy, token_amount_requested := 0
    sol_limit_specified := 0, sol_change := -5, token_change := 3 }

def exVictim : ParsedTransaction :=
  { signature := ['b'], slot := 101, signer := ['v'], mint := ['m']
    trade_type := TradeType.Buy, token_amount_requested := 10
    sol_limit_specified := 10, sol_change := -20, token_change := 10 }

def exBack : ParsedTransaction :=
  { signature := ['c'], slot := 102, signer := ['z'], mint := ['m']
    trade_type := TradeType.Sell, token_amount_requested := 0
    sol_limit_specified := 0, sol_change := 9, token_change := -3 }

def exFair : ParsedTransaction :=
  { signature := ['d'], slot := 101, signer := ['w'], mint := ['m']
    trade_type := TradeType.Buy, token_amount_requested := 10
    sol_limit_specified := 10, sol_change := -10, token_change := 10 }

def exBatch : List ParsedTransaction := [exFront, exVictim, exBack]

def exBatchWithFair : List ParsedTransaction := [exFront, exVictim, exFair, exBack]

def exConfig : DetectorConfig :=
  { max_slot_gap := 3, min_victim_abs_sol := 0, min_victim_abs_token := 0
    min_profit_lamports := 4, min_bot_trades := 1 }

def exConfigTwoBots : DetectorConfig := { exConfig with min_bot_trades := 2 }

-- ===================================================================
-- THEOREMS : simulator claims
-- ===================================================================

theorem rawSellOut_zero_tokens (s : PumpAmmState) : rawSellOut s 0 = 0 := by
  simp [rawSellOut, sellFee, u64Mod]

theorem simulate_buy_accepted (s : PumpAmmState) (x m : Nat)
    (h : m ≤ rawBuyOut s x) : simulate_buy s x m = (if 0 < rawBuyOut s x then
      ({ virtual_sol := u64Mod (s.virtual_sol + (x - buyFee x))
         virtual_token := s.virtual_token - rawBuyOut s x
         real_sol := u64Mod (s.real_sol + x)
         real_token := s.real_token - rawBuyOut s x }, rawBuyOut s x, x)
    else (s, rawBuyOut s x, x)) := by
  simp only [simulate_buy, Nat.not_lt.mpr h, if_false]

theorem simulate_sell_accepted (s : PumpAmmState) (y m : Nat)
    (h : m ≤ rawSellOut s y) : simulate_sell s y m = (if 0 < rawSellOut s y then
      ({ virtual_sol := s.virtual_sol - rawSellOut s y
         virtual_token := u64Mod (s.virtual_token + (y - sellFee y))
         real_sol := s.real_sol - rawSellOut s y
         real_token := u64Mod (s.real_token + y) }, rawSellOut s y)
    else (s, rawSellOut s y)) := by
  simp only [simulate_sell, Nat.not_lt.mpr h, if_false]

theorem u64Mod_le (n : Nat) : u64Mod n ≤ n := Nat.mod_le _ _

theorem u64Mod_lt (n : Nat) : u64Mod n < 2 ^ 64 := Nat.mod_lt _ (by norm_num)

/-- The constant-product quotient of a buy stays in u64 range whenever the
    token reserve does and the currency reserve is positive. -/
theorem cp_quotient_lt (af vt vs : Nat) (hvt : vt < 2 ^ 64) :
    af * vt / (vs + af) < 2 ^ 64 := by
  rcases Nat.eq_zero_or_pos af with h | h
  · simp [h]
  · calc af * vt / (vs + af) ≤ af * vt / af :=
        Nat.div_le_div_left (Nat.le_add_left af vs) h
      _ = vt := Nat.mul_div_cancel_left vt h
      _ < 2 ^ 64 := hvt

theorem rawBuyOut_eq (s : PumpAmmState) (hvt : s.virtual_token < 2 ^ 64)
    (hvs : 0 < s.virtual_sol) (x : Nat) :
    rawBuyOut s x =
      (x - buyFee x) * s.virtual_token / (s.virtual_sol + (x - buyFee x)) := by
  have h0 : ¬ s.virtual_sol = 0 := by omega
  simp only [rawBuyOut, if_neg h0, u64Mod]
  exact Nat.mod_eq_of_lt (cp_quotient_lt _ _ _ hvt)

theorem rawSellOut_eq (s : PumpAmmState) (hvs : s.virtual_sol < 2 ^ 64)
    (hvt : 0 < s.virtual_token) (y : Nat) :
    rawSellOut s y =
      (y - sellFee y) * s.virtual_sol / (s.virtual_token + (y - sellFee y)) := by
  have h0 : ¬ s.virtual_token = 0 := by omega
  simp only [rawSellOut, if_neg h0, u64Mod]
  exact Nat.mod_eq_of_lt (cp_quotient_lt _ _ _ hvs)

/-- C1 is false as stated: at currency_in = 2 ^ 63 the u64 multiplication
    inside the fee computation wraps (2 ^ 63 * 30 is 0 modulo 2 ^ 64), so the
    buy charges a fee of 1 instead of max(2 ^ 63 * 30 / 10000, 1). -/
theorem fee_formula_counterexample :
    buyFee (2 ^ 63) ≠ max (2 ^ 63 * 30 / 10000) 1 := by decide

/-- C1 (amended): for every u64-valid reserve state, the buy fee is
    max(((currency_in * 30) mod 2 ^ 64) / 10000, 1) — the fee multiplication
    is wrapping u64 arithmetic — the after-fee input is the saturating
    difference, and an accepted buy (raw output at least min_tokens_out)
    returns floor(after_fee * virtual_token / (virtual_sol + after_fee)),
    the 128-bit intermediate never overflowing; the sell is symmetric with
    the token and currency reserves swapped. -/
theorem constant_product_trade_formula :
    (∀ s : PumpAmmState, ValidState s → 0 < s.virtual_sol →
      ∀ x m : Nat, m ≤ rawBuyOut s x →
        buyFee x = max (x * FEE_BPS % 2 ^ 64 / 10000) 1 ∧
        (simulate_buy s x m).2.1 =
          (x - buyFee x) * s.virtual_token / (s.virtual_sol + (x - buyFee x))) ∧
    (∀ s : PumpAmmState, ValidState s → 0 < s.virtual_token →
      ∀ y m : Nat, m ≤ rawSellOut s y →
        sellFee y = max (y * FEE_BPS % 2 ^ 64 / 10000) 1 ∧
        (simulate_sell s y m).2 =
          (y - sellFee y) * s.virtual_sol / (s.virtual_token + (y - sellFee y))) := by
  constructor
  · intro s hs hvs x m hacc
    refine ⟨rfl, ?_⟩
    have h21 : (simulate_buy s x m).2.1 = rawBuyOut s x := by
      rw [simulate_buy_accepted s x m hacc]; split <;> rfl
    rw [h21, rawBuyOut_eq s hs.2.1 hvs x]
  · intro s hs hvt y m hacc
    refine ⟨rfl, ?_⟩
    have h2 : (simulate_sell s y m).2 = rawSellOut s y := by
      rw [simulate_sell_accepted s y m hacc]; split <;> rfl
    rw [h2, rawSellOut_eq s hs.1 hvt y]

/-- Witness for the amended C1 at the genesis state. -/
theorem constant_product_trade_formula_witness :
    (simulate_buy PumpAmmState.new 1000000000 0).2.1 =
      (1000000000 - buyFee 1000000000) * PumpAmmState.new.virtual_token /
        (PumpAmmState.new.virtual_sol + (1000000000 - buyFee 1000000000)) ∧
    (simulate_sell PumpAmmState.new 1000000 0).2 =
      (1000000 - sellFee 1000000) * PumpAmmState.new.virtual_sol /
        (PumpAmmState.new.virtual_token + (1000000 - sellFee 1000000)) :=
  ⟨(constant_product_trade_formula.1 PumpAmmState.new (by decide) (by decide)
      1000000000 0 (Nat.zero_le _)).2,
   (constant_product_trade_formula.2 PumpAmmState.new (by decide) (by decide)
      1000000 0 (Nat.zero_le _)).2⟩

/-- C2: a buy or sell whose raw constant-product output falls below the
    caller minimum returns zero and leaves all four reserve fields exactly
    as they were. -/
theorem rejected_trade_unchanged :
    (∀ (s : PumpAmmState) (x m : Nat), rawBuyOut s x < m →
      (simulate_buy s x m).2.1 = 0 ∧ (simulate_buy s x m).1 = s) ∧
    (∀ (s : PumpAmmState) (y m : Nat), rawSellOut s y < m →
      (simulate_sell s y m).2 = 0 ∧ (simulate_sell s y m).1 = s) := by
  constructor
  · intro s x m h
    constructor <;> simp [simulate_buy, if_pos h]
  · intro s y m h
    constructor <;> simp [simulate_sell, if_pos h]

/-- Witness for C2: a buy at genesis with an unreachably high minimum. -/
theorem rejected_trade_unchanged_witness :
    rawBuyOut PumpAmmState.new 1000000000 < 10 ^ 18 ∧
    (simulate_buy PumpAmmState.new 1000000000 (10 ^ 18)).2.1 = 0 ∧
    (simulate_buy PumpAmmState.new 1000000000 (10 ^ 18)).1 = PumpAmmState.new :=
  ⟨by decide,
   (rejected_trade_unchanged.1 PumpAmmState.new 1000000000 (10 ^ 18) (by decide)).1,
   (rejected_trade_unchanged.1 PumpAmmState.new 1000000000 (10 ^ 18) (by decide)).2⟩

/-- C3 is false as stated: the real token reserve update of a sell is an
    unchecked u64 addition; at genesis a sell of 2 ^ 64 - 5 tokens is
    accepted (positive output) and the addition wraps, leaving real_token
    below its previous value. -/
theorem reserve_addition_wraps_counterexample :
    0 < (simulate_sell PumpAmmState.new (2 ^ 64 - 5) 0).2 ∧
    (simulate_sell PumpAmmState.new (2 ^ 64 - 5) 0).1.real_token <
      PumpAmmState.new.real_token := by decide

/-- C3 (amended): the wide-to-i64 conversion of the decoder clamps into the
    i64 range and is the identity inside it, the reserve subtractions of the
    simulator saturate (reserves never grow on the subtracting side and never
    go negative), and u64-valid states stay u64-valid; but the fee
    multiplications and the reserve additions are unchecked u64 operations
    that wrap modulo 2 ^ 64. -/
theorem clamped_arithmetic_parts :
    (∀ v : Int, -(2 ^ 63) ≤ i128_to_i64 v ∧ i128_to_i64 v ≤ 2 ^ 63 - 1 ∧
      (-(2 ^ 63) ≤ v → v ≤ 2 ^ 63 - 1 → i128_to_i64 v = v)) ∧
    (∀ (s : PumpAmmState) (x m : Nat),
      (simulate_buy s x m).1.virtual_token ≤ s.virtual_token ∧
      (simulate_buy s x m).1.real_token ≤ s.real_token ∧
      (simulate_sell s x m).1.virtual_sol ≤ s.virtual_sol ∧
      (simulate_sell s x m).1.real_sol ≤ s.real_sol) ∧
    (∀ (s : PumpAmmState) (x m : Nat), ValidState s →
      ValidState (simulate_buy s x m).1 ∧ ValidState (simulate_sell s x m).1) := by
  refine ⟨?_, ?_, ?_⟩
  · intro v
    unfold i128_to_i64
    refine ⟨?_, ?_, ?_⟩ <;> (repeat' split) <;> omega
  · intro s x m
    refine ⟨?_, ?_, ?_, ?_⟩ <;>
      · simp only [simulate_buy, simulate_sell]
        repeat' split
        all_goals first
          | exact Nat.sub_le _ _
          | exact Nat.le_refl _
  · intro s x m hs
    obtain ⟨h1, h2, h3, h4⟩ := hs
    have hb1 := u64Mod_lt (s.virtual_sol + (x - buyFee x))
    have hb2 := u64Mod_lt (s.real_sol + x)
    have hc1 := u64Mod_lt (s.virtual_token + (x - sellFee x))
    have hc2 := u64Mod_lt (s.real_token + x)
    constructor <;>
      · simp only [simulate_buy, simulate_sell, ValidState]
        repeat' split
        all_goals refine ⟨?_, ?_, ?_, ?_⟩
        all_goals simp only []
        all_goals omega

/-- Witness for the amended C3 at concrete values. -/
theorem clamped_arithmetic_parts_witness :
    (-(2 ^ 63) ≤ (42 : Int) ∧ (42 : Int) ≤ 2 ^ 63 - 1 ∧ i128_to_i64 42 = 42) ∧
    ValidState PumpAmmState.new ∧
    ValidState (simulate_buy PumpAmmState.new 1000000000 0).1 ∧
    ValidState (simulate_sell PumpAmmState.new 1000000 0).1 :=
  ⟨⟨by decide, by decide,
    ((clamped_arithmetic_parts.1 42).2.2 (by decide) (by decide))⟩,
   by decide,
   (clamped_arithmetic_parts.2.2 PumpAmmState.new 1000000000 0 (by decide)).1,
   (clamped_arithmetic_parts.2.2 PumpAmmState.new 1000000 0 (by decide)).2⟩

/-- C10: the simulator mutates reserves only on a strictly positive output;
    a buy or sell that reports zero leaves all four reserve fields exactly
    as they were, whether the zero came from rejection or from truncation of
    a tiny accepted trade. -/
theorem zero_output_no_mutation :
    (∀ (s : PumpAmmState) (x m : Nat),
      (simulate_buy s x m).2.1 = 0 → (simulate_buy s x m).1 = s) ∧
    (∀ (s : PumpAmmState) (y m : Nat),
      (simulate_sell s y m).2 = 0 → (simulate_sell s y m).1 = s) := by
  constructor
  · intro s x m h
    by_cases hc : 0 < (if rawBuyOut s x < m then 0 else rawBuyOut s x)
    · have ho : (simulate_buy s x m).2.1 =
          (if rawBuyOut s x < m then 0 else rawBuyOut s x) := by
        simp only [simulate_buy, if_pos hc]
      omega
    · simp only [simulate_buy, if_neg hc]
  · intro s y m h
    by_cases hc : 0 < (if rawSellOut s y < m then 0 else rawSellOut s y)
    · have ho : (simulate_sell s y m).2 =
          (if rawSellOut s y < m then 0 else rawSellOut s y) := by
        simp only [simulate_sell, if_pos hc]
      omega
    · simp only [simulate_sell, if_neg hc]

/-- Witness for C10: a zero-input buy at genesis is accepted with zero
    output and mutates nothing. -/
theorem zero_output_no_mutation_witness :
    (simulate_buy PumpAmmState.new 0 0).2.1 = 0 ∧
    (simulate_buy PumpAmmState.new 0 0).1 = PumpAmmState.new :=
  ⟨by decide, zero_output_no_mutation.1 PumpAmmState.new 0 0 (by decide)⟩

/-- Monotonicity of the constant-product payout in the effective input:
    u * a / (b + u) grows with u. -/
theorem cp_payout_mono {u v : Nat} (a b : Nat) (h : u ≤ v) :
    u * a / (b + u) ≤ v * a / (b + v) := by
  rcases Nat.eq_zero_or_pos u with hu | hu
  · simp [hu]
  · have hbv : 0 < b + v := by omega
    rw [Nat.le_div_iff_mul_le hbv]
    set q := u * a / (b + u) with hq
    have h1 : q * (b + u) ≤ u * a := Nat.div_mul_le_self _ _
    have h2 : u * (q * b) ≤ v * (q * b) := Nat.mul_le_mul_right _ h
    have h3 : v * (q * (b + u)) ≤ v * (u * a) := Nat.mul_le_mul_left _ h1
    have h4 : u * (q * (b + v)) ≤ u * (v * a) := by nlinarith
    exact Nat.le_of_mul_le_mul_left h4 hu

/-- C9: after an accepted buy of x currency units followed by a sell of
    exactly the tokens the buy returned with min_currency_out = 0, the sell
    returns at most x, and the virtual currency reserve ends at most its
    pre-buy value plus the after-fee input of the buy: the fee and the
    integer truncation never create currency on a round trip. -/
theorem round_trip_no_free_currency (s : PumpAmmState) (x m : Nat)
    (hacc : m ≤ rawBuyOut s x) :
    (simulate_sell (simulate_buy s x m).1 (simulate_buy s x m).2.1 0).2 ≤ x ∧
    (simulate_sell (simulate_buy s x m).1 (simulate_buy s x m).2.1 0).1.virtual_sol ≤
      s.virtual_sol + (x - buyFee x) := by
  have h21 : (simulate_buy s x m).2.1 = rawBuyOut s x := by
    rw [simulate_buy_accepted s x m hacc]; split <;> rfl
  rcases Nat.eq_zero_or_pos (rawBuyOut s x) with ht | ht
  · have hst : (simulate_buy s x m).1 = s := by
      rw [simulate_buy_accepted s x m hacc, if_neg (by omega)]
    have hsell : simulate_sell s 0 0 = (s, 0) := by
      rw [simulate_sell_accepted s 0 0 (Nat.zero_le _), rawSellOut_zero_tokens]
      simp
    rw [h21, ht, hst, hsell]
    exact ⟨Nat.zero_le x, Nat.le_add_right _ _⟩
  · have hvs : ¬ s.virtual_sol = 0 := by
      intro h0
      have hz : rawBuyOut s x = 0 := by simp [rawBuyOut, h0]
      omega
    have hraw : rawBuyOut s x =
        u64Mod ((x - buyFee x) * s.virtual_token / (s.virtual_sol + (x - buyFee x))) := by
      simp [rawBuyOut, if_neg hvs]
    have htq : rawBuyOut s x ≤
        (x - buyFee x) * s.virtual_token / (s.virtual_sol + (x - buyFee x)) :=
      hraw ▸ Nat.mod_le _ _
    have hqvt : (x - buyFee x) * s.virtual_token / (s.virtual_sol + (x - buyFee x)) ≤
        s.virtual_token := by
      calc (x - buyFee x) * s.virtual_token / (s.virtual_sol + (x - buyFee x))
          ≤ (s.virtual_sol + (x - buyFee x)) * s.virtual_token /
              (s.virtual_sol + (x - buyFee x)) :=
            Nat.div_le_div_right (Nat.mul_le_mul_right _ (Nat.le_add_left _ _))
        _ = s.virtual_token := Nat.mul_div_cancel_left _ (by omega)
    have htvt : rawBuyOut s x ≤ s.virtual_token := le_trans htq hqvt
    have hvt : 0 < s.virtual_token := lt_of_lt_of_le ht htvt
    have ht5 : rawBuyOut s x * (s.virtual_sol + (x - buyFee x)) ≤
        (x - buyFee x) * s.virtual_token :=
      le_trans (Nat.mul_le_mul_right _ htq) (Nat.div_mul_le_self _ _)
    have hbuy : (simulate_buy s x m).1 =
        { virtual_sol := u64Mod (s.virtual_sol + (x - buyFee x))
          virtual_token := s.virtual_token - rawBuyOut s x
          real_sol := u64Mod (s.real_sol + x)
          real_token := s.real_token - rawBuyOut s x } := by
      rw [simulate_buy_accepted s x m hacc, if_pos ht]
    have hkey : rawSellOut (simulate_buy s x m).1 (rawBuyOut s x) ≤ x - buyFee x := by
      rw [hbuy]
      by_cases hvt1 : s.virtual_token - rawBuyOut s x = 0
      · simp [rawSellOut, hvt1]
      · calc rawSellOut
              { virtual_sol := u64Mod (s.virtual_sol + (x - buyFee x))
                virtual_token := s.virtual_token - rawBuyOut s x
                real_sol := u64Mod (s.real_sol + x)
                real_token := s.real_token - rawBuyOut s x } (rawBuyOut s x)
            = u64Mod ((rawBuyOut s x - sellFee (rawBuyOut s x)) *
                u64Mod (s.virtual_sol + (x - buyFee x)) /
                (s.virtual_token - rawBuyOut s x +
                  (rawBuyOut s x - sellFee (rawBuyOut s x)))) := by
              simp [rawSellOut, hvt1]
          _ ≤ (rawBuyOut s x - sellFee (rawBuyOut s x)) *
                u64Mod (s.virtual_sol + (x - buyFee x)) /
                (s.virtual_token - rawBuyOut s x +
                  (rawBuyOut s x - sellFee (rawBuyOut s x))) := Nat.mod_le _ _
          _ ≤ rawBuyOut s x * u64Mod (s.virtual_sol + (x - buyFee x)) /
                (s.virtual_token - rawBuyOut s x + rawBuyOut s x) :=
              cp_payout_mono _ _ (Nat.sub_le _ _)
          _ ≤ rawBuyOut s x * (s.virtual_sol + (x - buyFee x)) /
                (s.virtual_token - rawBuyOut s x + rawBuyOut s x) :=
              Nat.div_le_div_right (Nat.mul_le_mul_left _ (Nat.mod_le _ _))
          _ = rawBuyOut s x * (s.virtual_sol + (x - buyFee x)) / s.virtual_token := by
              rw [Nat.sub_add_cancel htvt]
          _ ≤ (x - buyFee x) * s.virtual_token / s.virtual_token :=
              Nat.div_le_div_right ht5
          _ = x - buyFee x := Nat.mul_div_cancel _ hvt
    have hsellrep := simulate_sell_accepted (simulate_buy s x m).1 (rawBuyOut s x) 0
      (Nat.zero_le _)
    constructor
    · rw [h21, hsellrep]
      split <;> exact le_trans hkey (Nat.sub_le x _)
    · rw [h21, hsellrep, hbuy]
      have hm : u64Mod (s.virtual_sol + (x - buyFee x)) ≤
          s.virtual_sol + (x - buyFee x) := Nat.mod_le _ _
      split
      · simp only []
        omega
      · simp only []
        omega

/-- Witness for C9: a one-SOL buy at genesis, then selling back the exact
    tokens received. -/
theorem round_trip_no_free_currency_witness :
    (simulate_sell (simulate_buy PumpAmmState.new 1000000000 0).1
        (simulate_buy PumpAmmState.new 1000000000 0).2.1 0).2 ≤ 1000000000 ∧
    (simulate_sell (simulate_buy PumpAmmState.new 1000000000 0).1
        (simulate_buy PumpAmmState.new 1000000000 0).2.1 0).1.virtual_sol ≤
      PumpAmmState.new.virtual_sol + (1000000000 - buyFee 1000000000) :=
  round_trip_no_free_currency PumpAmmState.new 1000000000 0 (by decide)

-- ===================================================================
-- THEOREMS : base-58 round trip
-- ===================================================================

theorem natDigitsBE_eq (B : Nat) (hB : 1 < B) :
    ∀ fuel n, n ≤ fuel → natDigitsBE B fuel n = (Nat.digits B n).reverse := by
  intro fuel
  induction fuel with
  | zero =>
    intro n h
    have h0 : n = 0 := by omega
    simp [natDigitsBE, h0]
  | succ fuel ih =>
    intro n h
    rcases Nat.eq_zero_or_pos n with h0 | h0
    · simp [natDigitsBE, h0]
    · have hdiv : n / B < n := Nat.div_lt_self h0 hB
      rw [show natDigitsBE B (fuel + 1) n =
          (if n = 0 then [] else natDigitsBE B fuel (n / B) ++ [n % B]) from rfl]
      rw [if_neg (by omega), ih (n / B) (by omega), Nat.digits_def' hB h0]
      simp

theorem baseVal_cons_zeros (B k : Nat) (l : List Nat) :
    baseVal B (List.replicate k 0 ++ l) = baseVal B l := by
  unfold baseVal
  rw [List.foldl_append]
  have hz : List.foldl (fun a d => a * B + d) 0 (List.replicate k 0) = 0 := by
    induction k with
    | zero => rfl
    | succ k ihk => simpa [List.replicate_succ] using ihk
  rw [hz]

theorem baseVal_reverse (B : Nat) (l : List Nat) :
    baseVal B l.reverse = Nat.ofDigits B l := by
  induction l with
  | nil => rfl
  | cons x xs ih =>
    rw [List.reverse_cons]
    unfold baseVal at ih ⊢
    rw [List.foldl_append, ih]
    simp [Nat.ofDigits_cons]
    ring

theorem baseVal_eq_ofDigits (B : Nat) (l : List Nat) :
    baseVal B l = Nat.ofDigits B l.reverse := by
  rw [← baseVal_reverse, List.reverse_reverse]

theorem baseVal_digits (B n : Nat) : baseVal B (Nat.digits B n).reverse = n := by
  rw [baseVal_reverse, Nat.ofDigits_digits]

theorem b58Digit_of_b58Char : ∀ d, d < 58 → b58Digit (b58Char d) = some d := by decide

theorem b58DigitsOf_map (ds : List Nat) (h : ∀ d ∈ ds, d < 58) :
    b58DigitsOf (ds.map b58Char) = some ds := by
  induction ds with
  | nil => rfl
  | cons d ds ih =>
    have hd := b58Digit_of_b58Char d (h d (by simp))
    have hds := ih fun x hx => h x (by simp [hx])
    simp [b58DigitsOf, hd, hds]

theorem b58DigitsOf_encode (k : Nat) (ds : List Nat) (h : ∀ d ∈ ds, d < 58) :
    b58DigitsOf (List.replicate k '1' ++ ds.map b58Char) =
      some (List.replicate k 0 ++ ds) := by
  induction k with
  | zero => simpa using b58DigitsOf_map ds h
  | succ k ih =>
    have h1 : b58Digit '1' = some 0 := by decide
    simp only [List.replicate_succ, List.cons_append, b58DigitsOf, h1, List.append_eq, ih]

theorem takeWhile_zeros (k : Nat) (l : List Nat)
    (hl : ∀ x xs, l = x :: xs → x ≠ 0) :
    (List.replicate k 0 ++ l).takeWhile (· = 0) = List.replicate k 0 := by
  induction k with
  | zero =>
    simp only [List.replicate, List.nil_append]
    cases l with
    | nil => rfl
    | cons x xs =>
      have hx := hl x xs rfl
      simp [List.takeWhile_cons, hx]
  | succ k ih =>
    simp only [List.replicate_succ, List.cons_append, List.takeWhile_cons]
    simp [ih]

theorem dropWhile_head_false (p : Nat → Bool) :
    ∀ (l : List Nat) x xs, l.dropWhile p = x :: xs → p x = false := by
  intro l
  induction l with
  | nil => intro x xs h; simp [List.dropWhile] at h
  | cons a as ih =>
    intro x xs h
    rw [List.dropWhile_cons] at h
    by_cases hp : p a = true
    · rw [if_pos hp] at h; exact ih x xs h
    · rw [if_neg hp] at h
      cases h
      simpa using hp

theorem bs58_round_trip (bytes : List Nat) (hb : ∀ b ∈ bytes, b < 256) :
    bs58_decode (bs58_encode bytes) = some bytes := by
  have hsplit : List.takeWhile (· = 0) bytes ++ List.dropWhile (· = 0) bytes = bytes :=
    List.takeWhile_append_dropWhile (fun x => decide (x = 0)) bytes
  have hrep : List.takeWhile (· = 0) bytes =
      List.replicate (List.takeWhile (· = 0) bytes).length (0 : Nat) := by
    rw [List.eq_replicate_length]
    intro b hbm
    simpa using List.mem_takeWhile_imp hbm
  set k := (List.takeWhile (· = 0) bytes).length with hk
  set rest := List.dropWhile (· = 0) bytes with hrest
  have hbytes : bytes = List.replicate k 0 ++ rest := by
    rw [← hsplit, ← hrep]
  set n := baseVal 256 bytes with hn
  have hnrest : n = baseVal 256 rest := by
    rw [hn, hbytes, baseVal_cons_zeros]
  have hd58 : natDigitsBE 58 n n = (Nat.digits 58 n).reverse :=
    natDigitsBE_eq 58 (by norm_num) n n (Nat.le_refl n)
  have hdigbound : ∀ d ∈ (Nat.digits 58 n).reverse, d < 58 := by
    intro d hd
    exact Nat.digits_lt_base (by norm_num) (List.mem_reverse.mp hd)
  have henc : bs58_encode bytes =
      List.replicate k '1' ++ ((Nat.digits 58 n).reverse).map b58Char := by
    simp only [bs58_encode, ← hk, ← hn, hd58]
  have hds : b58DigitsOf (bs58_encode bytes) =
      some (List.replicate k 0 ++ (Nat.digits 58 n).reverse) := by
    rw [henc]
    exact b58DigitsOf_encode k _ hdigbound
  have hvalue : baseVal 58 (List.replicate k 0 ++ (Nat.digits 58 n).reverse) = n := by
    rw [baseVal_cons_zeros, baseVal_digits]
  have hlast : ∀ x xs, (Nat.digits 58 n).reverse = x :: xs → x ≠ 0 := by
    intro x xs hx
    have hne : Nat.digits 58 n ≠ [] := by
      intro hnil
      rw [hnil] at hx
      simp at hx
    have hgl : (Nat.digits 58 n).getLast? = some x := by
      rw [← List.head?_reverse, hx]
      rfl
    have hn0 : n ≠ 0 := by
      intro h0
      rw [h0] at hne
      simp at hne
    have := Nat.getLast_digit_ne_zero 58 hn0
    rw [List.getLast?_eq_getLast _ hne] at hgl
    have hgx : (Nat.digits 58 n).getLast hne = x := Option.some_inj.mp hgl
    intro hx0
    exact this (hgx.trans hx0)
  have htake : (List.replicate k 0 ++ (Nat.digits 58 n).reverse).takeWhile (· = 0) =
      List.replicate k 0 := takeWhile_zeros k _ hlast
  have hrestbound : ∀ b ∈ rest, b < 256 := by
    intro b hbm
    exact hb b ((List.dropWhile_sublist (· = 0)).subset hbm)
  have hfinal : natDigitsBE 256 n n = rest.reverse.reverse := by
    rw [natDigitsBE_eq 256 (by norm_num) n n (Nat.le_refl n)]
    congr 1
    rw [hnrest, baseVal_eq_ofDigits]
    cases hcase : rest with
    | nil => simp [hcase, baseVal]
    | cons x xs =>
      have hx : x ≠ 0 := by
        have hp := dropWhile_head_false (· = 0) bytes x xs (by rw [← hrest, hcase])
        simpa using hp
      apply Nat.digits_ofDigits 256 (by norm_num)
      · intro y hy
        apply hrestbound
        rw [hcase]
        exact List.mem_reverse.mp hy
      · intro hne
        have hgl : (x :: xs).reverse.getLast? = some x := by
          rw [List.getLast?_reverse]
          rfl
        rw [List.getLast?_eq_getLast _ hne] at hgl
        rw [Option.some_inj.mp hgl]
        exact hx
  rw [show bs58_decode (bs58_encode bytes) =
      match b58DigitsOf (bs58_encode bytes) with
      | none => none
      | some ds =>
        some (List.replicate (ds.takeWhile (· = 0)).length 0 ++
          natDigitsBE 256 (baseVal 58 ds) (baseVal 58 ds)) from rfl]
  rw [hds]
  simp only [hvalue, htake, List.length_replicate, hfinal, List.reverse_reverse]
  rw [← hbytes]

-- ===================================================================
-- THEOREMS : decoder claims
-- ===================================================================

theorem leVal_leBytes8 (n : Nat) (h : n < 2 ^ 64) : leVal (leBytes8 n) = n := by
  simp only [leVal, leBytes8, List.foldr_cons, List.foldr_nil]
  norm_num
  omega

theorem leBytes8_bound (n : Nat) : ∀ y ∈ leBytes8 n, y < 256 := by
  intro y hy
  simp only [leBytes8, List.mem_cons, List.not_mem_nil, or_false] at hy
  rcases hy with h | h | h | h | h | h | h | h <;> subst h <;>
    exact Nat.mod_lt _ (by norm_num)

theorem try_decode_buy (a b : Nat) (ha : a < 2 ^ 64) (hb : b < 2 ^ 64) :
    try_decode BUY_DISCRIMINATOR (leBytes8 a ++ leBytes8 b) =
      some { trade_type := TradeType.Buy
             token_amount_requested := a
             sol_limit_specified := b } := by
  have h16 : (leBytes8 a ++ leBytes8 b).length = 16 := by simp [leBytes8]
  have hta : (leBytes8 a ++ leBytes8 b).take 8 = leBytes8 a :=
    List.take_left' (by simp [leBytes8])
  have htb : (leBytes8 a ++ leBytes8 b).drop 8 = leBytes8 b :=
    List.drop_left' (by simp [leBytes8])
  rw [try_decode, if_pos (by decide), if_pos rfl]
  rw [buyArgsFromSlice, if_pos h16, hta, htb,
    leVal_leBytes8 a ha, leVal_leBytes8 b hb]
  rfl

theorem try_decode_sell (a b : Nat) (ha : a < 2 ^ 64) (hb : b < 2 ^ 64) :
    try_decode SELL_DISCRIMINATOR (leBytes8 a ++ leBytes8 b) =
      some { trade_type := TradeType.Sell
             token_amount_requested := a
             sol_limit_specified := b } := by
  have h16 : (leBytes8 a ++ leBytes8 b).length = 16 := by simp [leBytes8]
  have hta : (leBytes8 a ++ leBytes8 b).take 8 = leBytes8 a :=
    List.take_left' (by simp [leBytes8])
  have htb : (leBytes8 a ++ leBytes8 b).drop 8 = leBytes8 b :=
    List.drop_left' (by simp [leBytes8])
  rw [try_decode, if_pos (by decide), if_neg (by decide), if_pos rfl]
  rw [sellArgsFromSlice, if_pos h16, hta, htb,
    leVal_leBytes8 a ha, leVal_leBytes8 b hb]
  rfl

theorem decode_raw_first_window (raw : List Nat) (d : DecodedInstruction)
    (hlen : ¬ raw.length < 8)
    (h : try_decode (raw.take 8) (raw.drop 8) = some d) :
    decode_raw raw = some d := by
  rw [decode_raw, if_neg hlen, h]
  rfl

theorem decode_raw_no_prefix (D args : List Nat) (hD : D.length = 8)
    (d : DecodedInstruction) (h : try_decode D args = some d) :
    decode_raw (D ++ args) = some d := by
  have hlen : ¬ (D ++ args).length < 8 := by simp [hD]
  have hta : (D ++ args).take 8 = D := List.take_left' hD
  have htd : (D ++ args).drop 8 = args := List.drop_left' hD
  exact decode_raw_first_window _ _ hlen (by rw [hta, htd, h])

theorem window0_none_of_take7 (c : Nat) (D args : List Nat) (t7 : List Nat)
    (ht7 : D.take 7 = t7) (hDlen : D.length = 8)
    (hbuy : c :: t7 ≠ BUY_DISCRIMINATOR) (hsell : c :: t7 ≠ SELL_DISCRIMINATOR) :
    try_decode ((c :: (D ++ args)).take 8) ((c :: (D ++ args)).drop 8) = none := by
  have ht : (c :: (D ++ args)).take 8 = c :: t7 := by
    rw [show (8 : Nat) = 7 + 1 from rfl, List.take_succ_cons,
      List.take_append_eq_append_take, hDlen]
    simp [ht7]
  rw [ht, try_decode]
  rw [if_pos (by simp [show t7.length = 7 from by rw [← ht7, List.length_take, hDlen]; omega])]
  rw [if_neg hbuy, if_neg hsell]

theorem decode_raw_one_prefix (c : Nat) (D args : List Nat) (hD : D.length = 8)
    (hw0 : try_decode ((c :: (D ++ args)).take 8) ((c :: (D ++ args)).drop 8) = none)
    (d : DecodedInstruction) (h : try_decode D args = some d) :
    decode_raw (c :: (D ++ args)) = some d := by
  have hlen : (c :: (D ++ args)).length = 9 + args.length := by simp [hD]; omega
  have h8 : ¬ (c :: (D ++ args)).length < 8 := by omega
  have h9 : 9 ≤ (c :: (D ++ args)).length := by omega
  have hd1 : ((c :: (D ++ args)).drop 1).take 8 = D := by
    rw [List.drop_one, List.tail_cons]
    exact List.take_left' hD
  have hd9 : (c :: (D ++ args)).drop 9 = args := by
    rw [show (9 : Nat) = 8 + 1 from rfl, List.drop_succ_cons]
    exact List.drop_left' hD
  rw [decode_raw, if_neg h8, hw0]
  show (if 9 ≤ (c :: (D ++ args)).length then _ else none) = some d
  rw [if_pos h9, hd1, hd9, h]

theorem try_decode_unknown (dsl payload : List Nat)
    (hb : dsl ≠ BUY_DISCRIMINATOR) (hs : dsl ≠ SELL_DISCRIMINATOR) :
    try_decode dsl payload = none := by
  rw [try_decode]
  split
  · simp [hb, hs]
  · rfl

/-- C7: for every synthetic buy or sell payload — the registered 8-byte
    discriminator followed by two little-endian u64 fields, optionally
    preceded by one arbitrary leading framing byte — decoding the base-58
    text of that payload recovers exactly the original
    (direction, requested amount, limit) triple, and the [0..8) window is
    tried before the [1..9) fallback (a hit in the first window decides the
    result). -/
theorem decoder_round_trip (a b : Nat) (ha : a < 2 ^ 64) (hb : b < 2 ^ 64) :
    (decode_instruction_data
        (bs58_encode (BUY_DISCRIMINATOR ++ (leBytes8 a ++ leBytes8 b))) =
      some { trade_type := TradeType.Buy
             token_amount_requested := a
             sol_limit_specified := b }) ∧
    (decode_instruction_data
        (bs58_encode (SELL_DISCRIMINATOR ++ (leBytes8 a ++ leBytes8 b))) =
      some { trade_type := TradeType.Sell
             token_amount_requested := a
             sol_limit_specified := b }) ∧
    (∀ c, c < 256 →
      decode_instruction_data
          (bs58_encode (c :: (BUY_DISCRIMINATOR ++ (leBytes8 a ++ leBytes8 b)))) =
        some { trade_type := TradeType.Buy
               token_amount_requested := a
               sol_limit_specified := b } ∧
      decode_instruction_data
          (bs58_encode (c :: (SELL_DISCRIMINATOR ++ (leBytes8 a ++ leBytes8 b)))) =
        some { trade_type := TradeType.Sell
               token_amount_requested := a
               sol_limit_specified := b }) ∧
    (∀ (raw : List Nat) (d : DecodedInstruction), ¬ raw.length < 8 →
      try_decode (raw.take 8) (raw.drop 8) = some d → decode_raw raw = some d) := by
  have hargsb : ∀ y ∈ leBytes8 a ++ leBytes8 b, y < 256 := by
    intro y hy
    rcases List.mem_append.mp hy with h | h
    · exact leBytes8_bound a y h
    · exact leBytes8_bound b y h
  have hbound : ∀ D : List Nat, (∀ y ∈ D, y < 256) →
      ∀ y ∈ D ++ (leBytes8 a ++ leBytes8 b), y < 256 := by
    intro D hD y hy
    rcases List.mem_append.mp hy with h | h
    · exact hD y h
    · exact hargsb y h
  have hbuyb : ∀ y ∈ BUY_DISCRIMINATOR, y < 256 := by decide
  have hsellb : ∀ y ∈ SELL_DISCRIMINATOR, y < 256 := by decide
  refine ⟨?_, ?_, ?_, ?_⟩
  · rw [decode_instruction_data, bs58_round_trip _ (hbound _ hbuyb)]
    show decode_raw _ = _
    exact decode_raw_no_prefix BUY_DISCRIMINATOR _ rfl _ (try_decode_buy a b ha hb)
  · rw [decode_instruction_data, bs58_round_trip _ (hbound _ hsellb)]
    show decode_raw _ = _
    exact decode_raw_no_prefix SELL_DISCRIMINATOR _ rfl _ (try_decode_sell a b ha hb)
  · intro c hc
    have hcb : ∀ D : List Nat, (∀ y ∈ D, y < 256) →
        ∀ y ∈ c :: (D ++ (leBytes8 a ++ leBytes8 b)), y < 256 := by
      intro D hD y hy
      rcases List.mem_cons.mp hy with h | h
      · omega
      · exact hbound D hD y h
    constructor
    · rw [decode_instruction_data, bs58_round_trip _ (hcb _ hbuyb)]
      show decode_raw _ = _
      refine decode_raw_one_prefix c BUY_DISCRIMINATOR _ rfl ?_ _ (try_decode_buy a b ha hb)
      exact window0_none_of_take7 c _ _ [102, 6, 61, 18, 1, 218, 235] (by decide) rfl
        (by simp [BUY_DISCRIMINATOR]) (by simp [SELL_DISCRIMINATOR])
    · rw [decode_instruction_data, bs58_round_trip _ (hcb _ hsellb)]
      show decode_raw _ = _
      refine decode_raw_one_prefix c SELL_DISCRIMINATOR _ rfl ?_ _ (try_decode_sell a b ha hb)
      exact window0_none_of_take7 c _ _ [51, 230, 133, 164, 1, 127, 131] (by decide) rfl
        (by simp [BUY_DISCRIMINATOR]) (by simp [SELL_DISCRIMINATOR])
  · intro raw d hlen h
    exact decode_raw_first_window raw d hlen h

/-- Witness for C7: concrete buy and prefixed sell payloads. -/
theorem decoder_round_trip_witness :
    decode_instruction_data
        (bs58_encode (BUY_DISCRIMINATOR ++ (leBytes8 5 ++ leBytes8 7))) =
      some { trade_type := TradeType.Buy
             token_amount_requested := 5
             sol_limit_specified := 7 } ∧
    decode_instruction_data
        (bs58_encode (0 :: (SELL_DISCRIMINATOR ++ (leBytes8 500 ++ leBytes8 77777)))) =
      some { trade_type := TradeType.Sell
             token_amount_requested := 500
             sol_limit_specified := 77777 } :=
  ⟨(decoder_round_trip 5 7 (by norm_num) (by norm_num)).1,
   ((decoder_round_trip 500 77777 (by norm_num) (by norm_num)).2.2.1 0
      (by norm_num)).2⟩

/-- C8: a payload shorter than eight bytes after base-58 decoding, or one
    matching neither discriminator in the [0..8) window nor (when at least
    nine bytes long) in the [1..9) window, decodes to none; and a matched
    discriminator whose remainder is not exactly the two-u64 layout is not a
    match. -/
theorem decoder_rejection :
    (∀ (s : List Char) (raw : List Nat), bs58_decode s = some raw →
      raw.length < 8 → decode_instruction_data s = none) ∧
    (∀ (s : List Char) (raw : List Nat), bs58_decode s = some raw →
      raw.take 8 ≠ BUY_DISCRIMINATOR → raw.take 8 ≠ SELL_DISCRIMINATOR →
      (9 ≤ raw.length → (raw.drop 1).take 8 ≠ BUY_DISCRIMINATOR ∧
        (raw.drop 1).take 8 ≠ SELL_DISCRIMINATOR) →
      decode_instruction_data s = none) ∧
    (∀ (disc payload : List Nat),
      disc = BUY_DISCRIMINATOR ∨ disc = SELL_DISCRIMINATOR →
      payload.length ≠ 16 → try_decode disc payload = none) := by
  refine ⟨?_, ?_, ?_⟩
  · intro s raw hs hlen
    rw [decode_instruction_data, hs]
    show decode_raw raw = none
    rw [decode_raw, if_pos hlen]
  · intro s raw hs hbw hsw hwin
    rw [decode_instruction_data, hs]
    show decode_raw raw = none
    rw [decode_raw]
    by_cases h8 : raw.length < 8
    · rw [if_pos h8]
    · rw [if_neg h8, try_decode_unknown _ _ hbw hsw]
      show (if 9 ≤ raw.length then try_decode ((raw.drop 1).take 8) (raw.drop 9)
        else none) = none
      by_cases h9 : 9 ≤ raw.length
      · rw [if_pos h9]
        exact try_decode_unknown _ _ (hwin h9).1 (hwin h9).2
      · rw [if_neg h9]
  · intro disc payload hdisc hlen
    rcases hdisc with h | h <;> subst h
    · rw [try_decode, if_pos (by decide), if_pos rfl, buyArgsFromSlice, if_neg hlen]
      rfl
    · rw [try_decode, if_pos (by decide), if_neg (by decide), if_pos rfl,
        sellArgsFromSlice, if_neg hlen]
      rfl

/-- Witness for C8: a one-byte payload, an eight-plus-byte payload with no
    matching discriminator, and a matched discriminator with a short
    remainder. -/
theorem decoder_rejection_witness :
    decode_instruction_data ['1'] = none ∧
    decode_instruction_data (bs58_encode [1, 1, 1, 1, 1, 1, 1, 1, 1]) = none ∧
    try_decode BUY_DISCRIMINATOR [1, 2, 3] = none :=
  ⟨decoder_rejection.1 ['1'] [0] (by decide) (by decide),
   decoder_rejection.2.1 (bs58_encode [1, 1, 1, 1, 1, 1, 1, 1, 1])
     [1, 1, 1, 1, 1, 1, 1, 1, 1] (by decide) (by decide) (by decide)
     (fun _ => by decide),
   decoder_rejection.2.2 BUY_DISCRIMINATOR [1, 2, 3] (Or.inl rfl) (by decide)⟩

-- ===================================================================
-- THEOREMS : detector claims
-- ===================================================================

theorem isEmpty_false_iff {α : Type} (l : List α) : l.isEmpty = false ↔ l ≠ [] := by
  cases l <;> simp

theorem mem_victimOrder (trades : List ParsedTransaction) (v : ParsedTransaction)
    (hv : v ∈ trades) : v ∈ victimOrder trades := by
  unfold victimOrder
  rw [List.mem_flatMap]
  refine ⟨v.slot, ?_, ?_⟩
  · unfold slotKeys
    have hmem : v.slot ∈ (trades.map ParsedTransaction.slot).dedup :=
      List.mem_dedup.mpr (List.mem_map_of_mem _ hv)
    exact ((List.perm_insertionSort _ _).mem_iff).mpr hmem
  · unfold txAtSlot
    exact List.mem_filter.mpr ⟨hv, by simp⟩

theorem frontrunCheck_bot (trades : List ParsedTransaction) (cfg : DetectorConfig)
    (victim tx : ParsedTransaction) (h : frontrunCheck trades cfg victim tx = true) :
    cfg.min_bot_trades ≤ signerCount trades tx.signer := by
  unfold frontrunCheck at h
  simp only [Bool.and_eq_true] at h
  have hbot := h.1.2
  simpa [isBot] using hbot

theorem backrunCheck_bot (trades : List ParsedTransaction) (cfg : DetectorConfig)
    (victim tx : ParsedTransaction) (h : backrunCheck trades cfg victim tx = true) :
    cfg.min_bot_trades ≤ signerCount trades tx.signer := by
  unfold backrunCheck at h
  simp only [Bool.and_eq_true] at h
  have hbot := h.1.2
  simpa [isBot] using hbot

theorem not_mem_frontrunsFor (trades : List ParsedTransaction) (cfg : DetectorConfig)
    (victim tx : ParsedTransaction)
    (h : signerCount trades tx.signer < cfg.min_bot_trades) :
    tx ∉ frontrunsFor trades cfg victim := by
  intro hmem
  have hc := (List.mem_filter.mp hmem).2
  have := frontrunCheck_bot trades cfg victim tx hc
  omega

theorem not_mem_backrunsFor (trades : List ParsedTransaction) (cfg : DetectorConfig)
    (victim tx : ParsedTransaction)
    (h : signerCount trades tx.signer < cfg.min_bot_trades) :
    tx ∉ backrunsFor trades cfg victim := by
  intro hmem
  have hc := (List.mem_filter.mp hmem).2
  have := backrunCheck_bot trades cfg victim tx hc
  omega

theorem front_runs_mem_elim (trades : List ParsedTransaction) (cfg : DetectorConfig)
    (e : FrontRunEvent) (h : e ∈ (detect_wide_attacks trades cfg).front_runs) :
    ∃ v ∈ victimOrder trades, victimPasses cfg v = true ∧
      e = { victim := v, frontruns := frontrunsFor trades cfg v } := by
  by_cases hne : trades.isEmpty = true
  · unfold detect_wide_attacks at h
    rw [if_pos hne] at h
    simp at h
  · unfold detect_wide_attacks at h
    rw [if_neg hne] at h
    obtain ⟨v, hv, hfv⟩ := List.mem_filterMap.mp h
    refine ⟨v, hv, ?_⟩
    split at hfv
    · next hc =>
      simp only [Bool.and_eq_true] at hc
      exact ⟨hc.1, (Option.some_inj.mp hfv).symm⟩
    · cases hfv

theorem back_runs_mem_elim (trades : List ParsedTransaction) (cfg : DetectorConfig)
    (e : BackRunEvent) (h : e ∈ (detect_wide_attacks trades cfg).back_runs) :
    ∃ v ∈ victimOrder trades, victimPasses cfg v = true ∧
      e = { victim := v, backruns := backrunsFor trades cfg v } := by
  by_cases hne : trades.isEmpty = true
  · unfold detect_wide_attacks at h
    rw [if_pos hne] at h
    simp at h
  · unfold detect_wide_attacks at h
    rw [if_neg hne] at h
    obtain ⟨v, hv, hfv⟩ := List.mem_filterMap.mp h
    refine ⟨v, hv, ?_⟩
    split at hfv
    · next hc =>
      simp only [Bool.and_eq_true] at hc
      exact ⟨hc.1, (Option.some_inj.mp hfv).symm⟩
    · cases hfv

theorem sandwiches_mem_elim (trades : List ParsedTransaction) (cfg : DetectorConfig)
    (d : SandwichDetection) (h : d ∈ (detect_wide_attacks trades cfg).sandwiches) :
    ∃ v ∈ victimOrder trades, victimPasses cfg v = true ∧
      cfg.min_profit_lamports ≤
        netSol (frontrunsFor trades cfg v ++ backrunsFor trades cfg v) ∧
      d = { victim := v
            frontruns := frontrunsFor trades cfg v
            backruns := backrunsFor trades cfg v
            net_profit_sol :=
              netSol (frontrunsFor trades cfg v ++ backrunsFor trades cfg v)
            net_token_delta :=
              netTokens (frontrunsFor trades cfg v ++ backrunsFor trades cfg v) } := by
  by_cases hne : trades.isEmpty = true
  · unfold detect_wide_attacks at h
    rw [if_pos hne] at h
    simp at h
  · unfold detect_wide_attacks at h
    rw [if_neg hne] at h
    obtain ⟨v, hv, hfv⟩ := List.mem_filterMap.mp h
    refine ⟨v, hv, ?_⟩
    split at hfv
    · next hc =>
      simp only [Bool.and_eq_true, decide_eq_true_eq] at hc
      exact ⟨hc.1.1.1, hc.2, (Option.some_inj.mp hfv).symm⟩
    · cases hfv

/-- C4: for every batch and configuration and every victim candidate that
    passes the breach and magnitude gates and has at least one front-run leg
    and at least one back-run leg, a sandwich detection for that victim is
    emitted if and only if the net currency delta over all its legs — the
    sum the code accumulates in 64-bit signed arithmetic — is at least
    min_profit_lamports. -/
theorem sandwich_profit_gate (trades : List ParsedTransaction)
    (cfg : DetectorConfig) (v : ParsedTransaction) (hv : v ∈ trades)
    (hpass : victimPasses cfg v = true)
    (hf : frontrunsFor trades cfg v ≠ [])
    (hb : backrunsFor trades cfg v ≠ []) :
    (∃ d ∈ (detect_wide_attacks trades cfg).sandwiches, d.victim = v) ↔
      cfg.min_profit_lamports ≤
        netSol (frontrunsFor trades cfg v ++ backrunsFor trades cfg v) := by
  constructor
  · rintro ⟨d, hd, hdv⟩
    obtain ⟨v', hv', hpass', hprofit', hrec⟩ := sandwiches_mem_elim trades cfg d hd
    have hv'v : v' = v := by rw [← hdv, hrec]
    rw [← hv'v]
    exact hprofit'
  · intro hprofit
    have hne : ¬ trades.isEmpty = true := by
      have := List.ne_nil_of_mem hv
      cases trades
      · simp at this
      · simp
    refine ⟨{ victim := v
              frontruns := frontrunsFor trades cfg v
              backruns := backrunsFor trades cfg v
              net_profit_sol :=
                netSol (frontrunsFor trades cfg v ++ backrunsFor trades cfg v)
              net_token_delta :=
                netTokens (frontrunsFor trades cfg v ++ backrunsFor trades cfg v) },
            ?_, rfl⟩
    unfold detect_wide_attacks
    rw [if_neg hne]
    apply List.mem_filterMap.mpr
    refine ⟨v, mem_victimOrder trades v hv, ?_⟩
    rw [if_pos ?_]
    simp only [Bool.and_eq_true, decide_eq_true_eq, Bool.not_eq_true',
      isEmpty_false_iff]
    exact ⟨⟨⟨hpass, hf⟩, hb⟩, hprofit⟩

/-- Witness for C4: the three-trade batch emits a sandwich for the breached
    victim when the threshold equals the leg total. -/
theorem sandwich_profit_gate_witness :
    ∃ d ∈ (detect_wide_attacks exBatch exConfig).sandwiches, d.victim = exVictim :=
  (sandwich_profit_gate exBatch exConfig exVictim (by decide)
    (by
      have h1 : (0 : Rat) ≤ |((-20 : Int) : Rat)| / 1000000000 := by positivity
      simp [victimPasses, magnitude_exceeds, analyze_execution,
        ExecutionBreach.any, exConfig, exVictim, negative_amount,
        positive_amount, h1])
    (by decide) (by decide)).mpr (by decide)

theorem analyze_fair (v : ParsedTransaction)
    (hbuy : v.trade_type = TradeType.Buy →
      negative_amount v.sol_change ≤ v.sol_limit_specified ∧
      v.token_amount_requested ≤ positive_amount v.token_change)
    (hsell : v.trade_type = TradeType.Sell →
      v.sol_limit_specified ≤ positive_amount v.sol_change ∧
      negative_amount v.token_change ≤ v.token_amount_requested) :
    (analyze_execution v).any = false := by
  cases hty : v.trade_type
  · obtain ⟨h1, h2⟩ := hbuy hty
    simp only [analyze_execution, hty, ExecutionBreach.any, Bool.or_eq_false_iff,
      decide_eq_false_iff_not]
    omega
  · obtain ⟨h1, h2⟩ := hsell hty
    simp only [analyze_execution, hty, ExecutionBreach.any, Bool.or_eq_false_iff,
      decide_eq_false_iff_not]
    omega

/-- C5: a trade whose execution is perfectly fair — for a Buy the currency
    spent is within the declared limit and the tokens received reach the
    requested amount, for a Sell the currency received reaches the declared
    minimum and no more tokens than requested are given up — never appears
    as the victim of any front-run event, back-run event, or sandwich
    detection, for any batch and configuration. -/
theorem fair_trade_never_victim (trades : List ParsedTransaction)
    (cfg : DetectorConfig) (v : ParsedTransaction)
    (hbuy : v.trade_type = TradeType.Buy →
      negative_amount v.sol_change ≤ v.sol_limit_specified ∧
      v.token_amount_requested ≤ positive_amount v.token_change)
    (hsell : v.trade_type = TradeType.Sell →
      v.sol_limit_specified ≤ positive_amount v.sol_change ∧
      negative_amount v.token_change ≤ v.token_amount_requested) :
    (∀ e ∈ (detect_wide_attacks trades cfg).front_runs, e.victim ≠ v) ∧
    (∀ e ∈ (detect_wide_attacks trades cfg).back_runs, e.victim ≠ v) ∧
    (∀ d ∈ (detect_wide_attacks trades cfg).sandwiches, d.victim ≠ v) := by
  have hvp : victimPasses cfg v = false := by
    unfold victimPasses
    rw [analyze_fair v hbuy hsell]
    rfl
  refine ⟨?_, ?_, ?_⟩
  · intro e he heq
    obtain ⟨v', _, hpass', hrec⟩ := front_runs_mem_elim trades cfg e he
    rw [hrec] at heq
    rw [show v' = v from heq] at hpass'
    rw [hvp] at hpass'
    cases hpass'
  · intro e he heq
    obtain ⟨v', _, hpass', hrec⟩ := back_runs_mem_elim trades cfg e he
    rw [hrec] at heq
    rw [show v' = v from heq] at hpass'
    rw [hvp] at hpass'
    cases hpass'
  · intro d hd heq
    obtain ⟨v', _, hpass', _, hrec⟩ := sandwiches_mem_elim trades cfg d hd
    rw [hrec] at heq
    rw [show v' = v from heq] at hpass'
    rw [hvp] at hpass'
    cases hpass'

/-- Witness for C5: a fairly executed buy inside a batch full of bot
    activity is the victim of nothing. -/
theorem fair_trade_never_victim_witness :
    (∀ e ∈ (detect_wide_attacks exBatchWithFair exConfig).front_runs,
      e.victim ≠ exFair) ∧
    (∀ e ∈ (detect_wide_attacks exBatchWithFair exConfig).back_runs,
      e.victim ≠ exFair) ∧
    (∀ d ∈ (detect_wide_attacks exBatchWithFair exConfig).sandwiches,
      d.victim ≠ exFair) :=
  fair_trade_never_victim exBatchWithFair exConfig exFair (by decide) (by decide)

/-- C6: a trade whose signer appears in strictly fewer than min_bot_trades
    trades of the whole batch is never included as a front-run or back-run
    leg of any event or sandwich detection. -/
theorem bot_gating (trades : List ParsedTransaction) (cfg : DetectorConfig)
    (tx : ParsedTransaction)
    (h : signerCount trades tx.signer < cfg.min_bot_trades) :
    (∀ e ∈ (detect_wide_attacks trades cfg).front_runs, tx ∉ e.frontruns) ∧
    (∀ e ∈ (detect_wide_attacks trades cfg).back_runs, tx ∉ e.backruns) ∧
    (∀ d ∈ (detect_wide_attacks trades cfg).sandwiches,
      tx ∉ d.frontruns ∧ tx ∉ d.backruns) := by
  refine ⟨?_, ?_, ?_⟩
  · intro e he
    obtain ⟨v', _, _, hrec⟩ := front_runs_mem_elim trades cfg e he
    rw [hrec]
    exact not_mem_frontrunsFor trades cfg v' tx h
  · intro e he
    obtain ⟨v', _, _, hrec⟩ := back_runs_mem_elim trades cfg e he
    rw [hrec]
    exact not_mem_backrunsFor trades cfg v' tx h
  · intro d hd
    obtain ⟨v', _, _, _, hrec⟩ := sandwiches_mem_elim trades cfg d hd
    rw [hrec]
    exact ⟨not_mem_frontrunsFor trades cfg v' tx h,
      not_mem_backrunsFor trades cfg v' tx h⟩

/-- Witness for C6: with min_bot_trades = 2 the single-trade victim signer
    is never a leg. -/
theorem bot_gating_witness :
    signerCount exBatch exVictim.signer < exConfigTwoBots.min_bot_trades ∧
    ((∀ e ∈ (detect_wide_attacks exBatch exConfigTwoBots).front_runs,
        exVictim ∉ e.frontruns) ∧
      (∀ e ∈ (detect_wide_attacks exBatch exConfigTwoBots).back_runs,
        exVictim ∉ e.backruns) ∧
      (∀ d ∈ (detect_wide_attacks exBatch exConfigTwoBots).sandwiches,
        exVictim ∉ d.frontruns ∧ exVictim ∉ d.backruns)) :=
  ⟨by decide, bot_gating exBatch exConfigTwoBots exVictim (by decide)⟩
